import Mathlib

/-!
Verification development for the allocator facility engine (`src/models.py`).

The program keeps its state in three SQLite tables created by
`Facility.intialize_db`: `rooms` (unique `name`, `type`, `capacity`),
`people` (unique `name`, `type`, `accomodation`) and `people_rooms`
(`person_id`, `room_id`).  We embed each table as a list of rows, with the
`integer PRIMARY KEY AUTOINCREMENT` columns modelled by per-table counters
starting at 1 (SQLite's first AUTOINCREMENT value).

Every operation of the Python class `Facility` is translated directly; a
Python exception escaping an operation is modelled by returning the state at
raise time together with `some err` (the `records` library autocommits each
INSERT, so rows written before the exception stay committed).
-/

/-- A row of the `people` table: `type` is `"F"` (fellow) or `"S"` (staff),
`accomodation` is the textual flag stored by `Fellow.save` / `Staff.save`
(`"Y"`/`"N"`; the spec reads `"N"` as `wants_accommodation = false`). -/
structure PersonRec where
  id : Nat
  name : String
  type : String
  accomodation : String
deriving DecidableEq

/-- A row of the `rooms` table: `type` is `"O"` (office, saved by
`Office.save`) or `"L"` (living space, saved by `LivingSpace.save`). -/
structure RoomRec where
  id : Nat
  name : String
  type : String
  capacity : Nat
deriving DecidableEq

/-- A row of the `people_rooms` assignment table. -/
structure AssignRec where
  id : Nat
  person_id : Nat
  room_id : Nat
deriving DecidableEq

/-- The whole database of one facility. -/
structure DB where
  rooms : List RoomRec
  people : List PersonRec
  people_rooms : List AssignRec
  nextRoomId : Nat
  nextPersonId : Nat
  nextAssignId : Nat
deriving DecidableEq

/-- The empty database produced by `Facility.intialize_db` on a fresh file. -/
def initDB : DB := ⟨[], [], [], 1, 1, 1⟩

/-- The error outcomes visible to callers of the engine.  `integrityError` is
`sqlalchemy.exc.IntegrityError` (a UNIQUE-constraint violation surfacing raw
from the storage layer); `invalidType` is `ValueError('Invalid Room Type')`;
`invalidRecord` is `ValueError('Invalid Input File!')`.  The remaining
constructors are the error kinds named by the specification. -/
inductive Err where
  | integrityError
  | invalidType
  | invalidRecord
  | duplicateName
  | notFound
  | typeMismatch
  | capacityExceeded
  | sameRoom
  | alreadyAssigned
deriving DecidableEq

/-- `INSERT INTO rooms (name, type, capacity) VALUES (...)`.  The UNIQUE
constraint on `rooms.name` makes the insert raise `IntegrityError` when the
name is already present. -/
def insertRoom (db : DB) (name ty : String) (cap : Nat) : Except Err DB :=
  if db.rooms.any (fun r => r.name == name) then .error .integrityError
  else .ok { db with
    rooms := db.rooms ++ [⟨db.nextRoomId, name, ty, cap⟩],
    nextRoomId := db.nextRoomId + 1 }

/-- `INSERT INTO people (name, type, accomodation) VALUES (...)`, with the
UNIQUE constraint on `people.name`. -/
def insertPerson (db : DB) (name ty acc : String) : Except Err DB :=
  if db.people.any (fun p => p.name == name) then .error .integrityError
  else .ok { db with
    people := db.people ++ [⟨db.nextPersonId, name, ty, acc⟩],
    nextPersonId := db.nextPersonId + 1 }

/-- `Office.save`: offices are created with capacity 6 and type `"O"`. -/
def officeSave (db : DB) (name : String) : Except Err DB :=
  insertRoom db name "O" 6

/-- `LivingSpace.save`: living spaces are created with capacity 4, type `"L"`. -/
def livingSpaceSave (db : DB) (name : String) : Except Err DB :=
  insertRoom db name "L" 4

/-- `Fellow.save`: stores type `"F"` and the fellow's accomodation flag. -/
def fellowSave (db : DB) (name acc : String) : Except Err DB :=
  insertPerson db name "F" acc

/-- `Staff.save`: stores type `"S"` and always accomodation `"N"`. -/
def staffSave (db : DB) (name : String) : Except Err DB :=
  insertPerson db name "S" "N"

/-- The `for room_name in rooms` loop of `Facility.create_rooms`: save each
room; an exception stops the loop, leaving earlier saves committed. -/
def createRoomsLoop (db : DB) (room_type : String) : List String → DB × Option Err
  | [] => (db, none)
  | name :: rest =>
    match (if room_type == "living_space" then livingSpaceSave db name
           else officeSave db name) with
    | .error e => (db, some e)
    | .ok db' => createRoomsLoop db' room_type rest

/-- `Facility.create_rooms`: rejects a `room_type` outside
`('living_space', 'office')` with `ValueError('Invalid Room Type')` before
touching the database, then saves each named room. -/
def createRooms (db : DB) (room_type : String) (rooms : List String) : DB × Option Err :=
  if room_type ≠ "living_space" ∧ room_type ≠ "office" then (db, some .invalidType)
  else createRoomsLoop db room_type rooms

/-- The `for name in fellows` loop of `Facility.add_fellows`. -/
def addFellowsLoop (db : DB) (wa : String) : List String → DB × Option Err
  | [] => (db, none)
  | name :: rest =>
    match fellowSave db name wa with
    | .error e => (db, some e)
    | .ok db' => addFellowsLoop db' wa rest

/-- Python's `str.lower`, on the character list of the string (the names and
flags handled by the program are ASCII, where `Char.toLower` agrees with
Python). -/
def lowerStr (s : String) : String :=
  ⟨s.data.map Char.toLower⟩

/-- `Facility.add_fellows`: normalizes the accomodation argument once
(`'Y' if accomodation.lower() == 'y' else 'N'`) and saves every fellow with
that flag. -/
def addFellows (db : DB) (fellows : List String) (accomodation : String) : DB × Option Err :=
  let wa := if lowerStr accomodation == "y" then "Y" else "N"
  addFellowsLoop db wa fellows

/-- The `for name in staff` loop of `Facility.add_staff`. -/
def addStaffLoop (db : DB) : List String → DB × Option Err
  | [] => (db, none)
  | name :: rest =>
    match staffSave db name with
    | .error e => (db, some e)
    | .ok db' => addStaffLoop db' rest

/-- `Facility.add_staff`. -/
def addStaff (db : DB) (staff : List String) : DB × Option Err :=
  addStaffLoop db staff

/-- Does the character list `sep` occur at the head of `s`? -/
def startsWithL (sep s : List Char) : Bool :=
  match sep, s with
  | [], _ => true
  | _ :: _, [] => false
  | p :: ps, c :: cs => p == c && startsWithL ps cs

/-- Python's `str.split(sep)` for a nonempty separator, over character
lists: scan left to right, cutting at each non-overlapping occurrence of
`sep`.  `cur` holds the current chunk reversed; each step consumes at least
one character of `s`, so `fuel = s.length + 1` never runs out. -/
def splitOnAuxL (sep s cur : List Char) (fuel : Nat) : List (List Char) :=
  match fuel with
  | 0 => [cur.reverse ++ s]
  | fuel + 1 =>
    match s with
    | [] => [cur.reverse]
    | c :: cs =>
      if startsWithL sep s then
        cur.reverse :: splitOnAuxL sep (s.drop sep.length) [] fuel
      else
        splitOnAuxL sep cs (c :: cur) fuel

/-- Python's `line.split(sep)` (nonempty `sep`), as a `String` operation. -/
def splitOnStr (line sep : String) : List String :=
  (splitOnAuxL sep.data line.data [] (line.data.length + 1)).map
    (fun chunk => ⟨chunk⟩)

/-- Python's `str.strip()`: drop leading and trailing whitespace. -/
def stripStr (s : String) : String :=
  ⟨((s.data.dropWhile Char.isWhitespace).reverse.dropWhile Char.isWhitespace).reverse⟩

/-- Python's `pat in line` substring test, expressed through the same
`str.split` primitive `load_people` uses: the separator occurs in `line`
exactly when splitting on it yields at least two chunks. -/
def containsSub (line pat : String) : Bool :=
  2 ≤ (splitOnStr line pat).length

/-- The reading loop of `Facility.load_people`: each line is classified as a
fellow record (contains `FELLOW`), a staff record (contains `STAFF`), or
malformed, in which case `ValueError('Invalid Input File!')` is raised.
Fellow lines contribute `(chunk0, chunk1)` of `line.split('FELLOW')` after
stripping, staff lines contribute `chunk0` of `line.split('STAFF')`.
Nothing is persisted during this phase. -/
def parseLines : List String → List (String × String) → List String →
    Except Err (List (String × String) × List String)
  | [], fellows, staff => .ok (fellows, staff)
  | line :: rest, fellows, staff =>
    if containsSub line "FELLOW" then
      let chunks := (splitOnStr line "FELLOW").map stripStr
      parseLines rest (fellows ++ [(chunks.getD 0 "", chunks.getD 1 "")]) staff
    else if containsSub line "STAFF" then
      let chunks := (splitOnStr line "STAFF").map stripStr
      parseLines rest fellows (staff ++ [chunks.getD 0 ""])
    else .error .invalidRecord

/-- The fellow-persisting loop of `load_people`, including its iteration
hazard: `for (name, accomodation) in fellows` iterates by index while the
`except IntegrityError` handler calls `fellows.remove(...)`, shifting later
elements under the live index.  We model CPython's list iterator literally
(fetch element `i`, advance, run the body, which may erase the first
occurrence of the fetched value).  Each iteration advances `i` by one, so at
most `lst.length` iterations run; `fuel` is initialized to that bound, and
when it reaches 0 the index has necessarily passed the end of the (only
shrinking) list, so returning is exactly the loop's own exit. -/
def saveFellowsAux (db : DB) (lst : List (String × String)) (i fuel : Nat) :
    DB × List (String × String) :=
  match fuel with
  | 0 => (db, lst)
  | fuel + 1 =>
    if h : i < lst.length then
      match fellowSave db (lst.get ⟨i, h⟩).1 (lst.get ⟨i, h⟩).2 with
      | .error _ => saveFellowsAux db (lst.erase (lst.get ⟨i, h⟩)) (i + 1) fuel
      | .ok db' => saveFellowsAux db' lst (i + 1) fuel
    else (db, lst)

/-- Run the fellow-persisting loop from the start of the list. -/
def saveFellows (db : DB) (lst : List (String × String)) :
    DB × List (String × String) :=
  saveFellowsAux db lst 0 lst.length

/-- The staff-persisting loop of `load_people`, with the same
mutate-while-iterating pattern (`staff.remove(member)` inside the handler). -/
def saveStaffAux (db : DB) (lst : List String) (i fuel : Nat) :
    DB × List String :=
  match fuel with
  | 0 => (db, lst)
  | fuel + 1 =>
    if h : i < lst.length then
      match staffSave db (lst.get ⟨i, h⟩) with
      | .error _ => saveStaffAux db (lst.erase (lst.get ⟨i, h⟩)) (i + 1) fuel
      | .ok db' => saveStaffAux db' lst (i + 1) fuel
    else (db, lst)

/-- Run the staff-persisting loop from the start of the list. -/
def saveStaff (db : DB) (lst : List String) : DB × List String :=
  saveStaffAux db lst 0 lst.length

/-- `Facility.load_people` reads and classifies every line first; a malformed
line raises before anything is persisted.  Only after the whole file is read
are the collected fellows and staff saved (duplicates swallowed by the
IntegrityError handlers).  The trailing `available_rooms` call and prints are
read-only. -/
def loadPeople (db : DB) (lines : List String) : DB × Option Err :=
  match parseLines lines [] [] with
  | .error e => (db, some e)
  | .ok (fellows, staff) =>
    let r1 := saveFellows db fellows
    let r2 := saveStaff r1.1 staff
    (r2.1, none)

/-- Occupant count of a room id in an assignment table: the
`select count(id) from people_rooms where room_id={id}` query. -/
def countIn (l : List AssignRec) (rid : Nat) : Nat :=
  (l.filter (fun a => a.room_id == rid)).length

/-- Occupant count of a room id in the database. -/
def occupantCount (db : DB) (rid : Nat) : Nat :=
  countIn db.people_rooms rid

/-- One entry of the list built by `Facility.available_rooms`. -/
structure RoomReport where
  name : String
  type : String
  capacity : Nat
  available_space : Int
deriving DecidableEq

/-- `Facility.available_rooms`: for every room, report name, type, capacity
and `capacity - room_count`, where `room_count` counts `people_rooms` rows
with that room's id. -/
def availableRooms (db : DB) : List RoomReport :=
  db.rooms.map (fun r =>
    ⟨r.name, r.type, r.capacity, (r.capacity : Int) - (occupantCount db r.id : Int)⟩)

/-- `select * from people where name = ...` (first match). -/
def findPersonByName (db : DB) (name : String) : Option PersonRec :=
  db.people.find? (fun p => p.name == name)

/-- Room lookup by name (first match). -/
def findRoomByName (db : DB) (name : String) : Option RoomRec :=
  db.rooms.find? (fun r => r.name == name)

/-- Room lookup by id (first match; ids are unique in reachable states). -/
def findRoomById (db : DB) (rid : Nat) : Option RoomRec :=
  db.rooms.find? (fun r => r.id == rid)

/-- Person lookup by id (first match). -/
def findPersonById (db : DB) (pid : Nat) : Option PersonRec :=
  db.people.find? (fun p => p.id == pid)

/-- Modelled from the spec: room-type eligibility.  "staff may never be
assigned to a living space"; fellows are eligible for both types. -/
def eligible (personType roomType : String) : Bool :=
  !(personType == "S" && roomType == "L")

/-- The room type referenced by an assignment row, when the room exists. -/
def assignRoomType (db : DB) (a : AssignRec) : Option String :=
  (findRoomById db a.room_id).map (fun r => r.type)

/-- Does the person already hold an assignment to a room of type `t`? -/
def holdsType (db : DB) (pid : Nat) (t : String) : Bool :=
  db.people_rooms.any (fun a => a.person_id == pid && assignRoomType db a == some t)

/-- Modelled from the spec: the Occupancy Ledger's `assign` primitive.  It is
missing from `src/models.py` — the `people_rooms` table is declared by
`intialize_db` but never written by any method — so this follows the spec's
contract: fail `CapacityExceeded` if the room's occupant count equals its
capacity, `AlreadyAssigned` if the person already holds a same-type
assignment, `TypeMismatch` if the person's role is ineligible for the room
type, otherwise create the assignment row. -/
def assign (db : DB) (pid rid : Nat) : DB × Option Err :=
  match findPersonById db pid with
  | none => (db, some .notFound)
  | some p =>
    match findRoomById db rid with
    | none => (db, some .notFound)
    | some r =>
      if occupantCount db rid = r.capacity then (db, some .capacityExceeded)
      else if holdsType db pid r.type then (db, some .alreadyAssigned)
      else if !(eligible p.type r.type) then (db, some .typeMismatch)
      else ({ db with
        people_rooms := db.people_rooms ++ [⟨db.nextAssignId, pid, rid⟩],
        nextAssignId := db.nextAssignId + 1 }, none)

/-- Modelled from the spec: `Facility.reallocate_person` is an unimplemented
stub (its body is `pass`), so this follows the spec's reallocate contract:
resolve both names (`NotFound` if either is missing), then fail
`TypeMismatch` if the person's role is ineligible for the new room's type,
`CapacityExceeded` if the destination is full, `SameRoom` if the person is
already in that exact room; otherwise atomically drop the person's existing
same-type assignment (if any) and create the new one. -/
def reallocate (db : DB) (person_name new_room : String) : DB × Option Err :=
  match findPersonByName db person_name with
  | none => (db, some .notFound)
  | some p =>
    match findRoomByName db new_room with
    | none => (db, some .notFound)
    | some r =>
      if !(eligible p.type r.type) then (db, some .typeMismatch)
      else if r.capacity ≤ occupantCount db r.id then (db, some .capacityExceeded)
      else if db.people_rooms.any (fun a => a.person_id == p.id && a.room_id == r.id) then
        (db, some .sameRoom)
      else
        let cleared := db.people_rooms.filter
          (fun a => !(a.person_id == p.id && assignRoomType db a == some r.type))
        ({ db with
          people_rooms := cleared ++ [⟨db.nextAssignId, p.id, r.id⟩],
          nextAssignId := db.nextAssignId + 1 }, none)

/-- The operations a client can run against a facility: the implemented
`Facility` methods plus the spec-modelled ledger mutations. -/
inductive Op where
  | createRooms (room_type : String) (rooms : List String)
  | addFellows (fellows : List String) (accomodation : String)
  | addStaff (staff : List String)
  | loadPeople (lines : List String)
  | assign (person_id room_id : Nat)
  | reallocate (person room : String)

/-- Run one operation; the state is kept whether or not it reports an error
(a raised exception leaves already-committed writes in place). -/
def applyOp (db : DB) : Op → DB × Option Err
  | .createRooms t rs => createRooms db t rs
  | .addFellows fs a => addFellows db fs a
  | .addStaff s => addStaff db s
  | .loadPeople ls => loadPeople db ls
  | .assign p r => assign db p r
  | .reallocate p r => reallocate db p r

/-- Run a sequence of operations from a starting state. -/
def runOps (db : DB) : List Op → DB
  | [] => db
  | op :: rest => runOps (applyOp db op).1 rest

/-! ## Basic lemmas about occupant counting and the insert primitives -/

theorem countIn_append (l m : List AssignRec) (rid : Nat) :
    countIn (l ++ m) rid = countIn l rid + countIn m rid := by
  simp [countIn, List.filter_append]

theorem countIn_singleton (a : AssignRec) (rid : Nat) :
    countIn [a] rid = if a.room_id = rid then 1 else 0 := by
  rw [countIn, List.filter_singleton]
  by_cases h : a.room_id = rid <;> simp [h, Bool.cond_eq_if]

theorem countIn_le_of_sublist {l m : List AssignRec} (h : l.Sublist m) (rid : Nat) :
    countIn l rid ≤ countIn m rid :=
  (h.filter _).length_le

theorem countIn_eq_zero {l : List AssignRec} {rid : Nat}
    (h : ∀ a ∈ l, a.room_id ≠ rid) : countIn l rid = 0 := by
  have : l.filter (fun a => a.room_id == rid) = [] := by
    rw [List.filter_eq_nil_iff]
    intro a ha
    simpa using h a ha
  simp [countIn, this]

theorem insertRoom_ok {db db' : DB} {n t : String} {cap : Nat}
    (h : insertRoom db n t cap = .ok db') :
    db'.rooms = db.rooms ++ [⟨db.nextRoomId, n, t, cap⟩] ∧
    db'.people_rooms = db.people_rooms ∧
    db'.nextRoomId = db.nextRoomId + 1 := by
  unfold insertRoom at h
  split at h
  · exact absurd h (by simp)
  · injection h with h
    subst h
    exact ⟨rfl, rfl, rfl⟩

theorem insertPerson_ok {db db' : DB} {n t a : String}
    (h : insertPerson db n t a = .ok db') :
    db'.rooms = db.rooms ∧ db'.people_rooms = db.people_rooms ∧
    db'.nextRoomId = db.nextRoomId ∧
    db'.people = db.people ++ [⟨db.nextPersonId, n, t, a⟩] := by
  unfold insertPerson at h
  split at h
  · exact absurd h (by simp)
  · injection h with h
    subst h
    exact ⟨rfl, rfl, rfl, rfl⟩

/-! ## The reachable-state invariant

`GoodDB` collects what holds of every database reachable from `initDB`:
the capacity invariant itself, the fixed capacity per room type, and the
bookkeeping facts about AUTOINCREMENT ids that make the capacity argument
go through (ids of rooms are below the counter and pairwise distinct, and
assignments only reference ids below the counter). -/

/-- Every room's occupant count is at most its capacity. -/
def CapOk (db : DB) : Prop :=
  ∀ r ∈ db.rooms, occupantCount db r.id ≤ r.capacity

/-- Every room is an office of capacity 6 or a living space of capacity 4. -/
def RoomsTyped (db : DB) : Prop :=
  ∀ r ∈ db.rooms, (r.type = "O" ∧ r.capacity = 6) ∨ (r.type = "L" ∧ r.capacity = 4)

/-- Every room id is below the AUTOINCREMENT counter. -/
def RoomIdsBound (db : DB) : Prop :=
  ∀ r ∈ db.rooms, r.id < db.nextRoomId

/-- Every assignment references a room id below the counter. -/
def AssignIdsBound (db : DB) : Prop :=
  ∀ a ∈ db.people_rooms, a.room_id < db.nextRoomId

/-- Room ids are pairwise distinct. -/
def RoomIdsNodup (db : DB) : Prop :=
  db.rooms.Pairwise (fun r s => r.id ≠ s.id)

/-- The reachable-state invariant. -/
def GoodDB (db : DB) : Prop :=
  CapOk db ∧ RoomsTyped db ∧ RoomIdsBound db ∧ AssignIdsBound db ∧ RoomIdsNodup db

theorem goodDB_init : GoodDB initDB := by
  refine ⟨?_, ?_, ?_, ?_, ?_⟩ <;>
    simp [CapOk, RoomsTyped, RoomIdsBound, AssignIdsBound, RoomIdsNodup, initDB]

/-- Two rooms of a good database with the same id are the same room. -/
theorem room_id_inj {db : DB} (hnd : RoomIdsNodup db) {r s : RoomRec}
    (hr : r ∈ db.rooms) (hs : s ∈ db.rooms) (h : r.id = s.id) : r = s := by
  by_contra hne
  have hsymm : Symmetric (fun r s : RoomRec => r.id ≠ s.id) := by
    intro x y hxy heq
    exact hxy heq.symm
  exact List.Pairwise.forall hsymm hnd hr hs hne h

/-- An operation that leaves the room table, the assignment table and the
room-id counter untouched preserves the invariant. -/
theorem goodDB_of_fields {db db' : DB} (hg : GoodDB db)
    (h1 : db'.rooms = db.rooms) (h2 : db'.people_rooms = db.people_rooms)
    (h3 : db'.nextRoomId = db.nextRoomId) : GoodDB db' := by
  obtain ⟨hc, ht, hb, ha, hn⟩ := hg
  refine ⟨?_, ?_, ?_, ?_, ?_⟩
  · intro r hr
    rw [h1] at hr
    have := hc r hr
    simpa [occupantCount, h2] using this
  · intro r hr
    exact ht r (h1 ▸ hr)
  · intro r hr
    rw [h1] at hr
    rw [h3]
    exact hb r hr
  · intro a haa
    rw [h2] at haa
    rw [h3]
    exact ha a haa
  · unfold RoomIdsNodup at hn ⊢
    rw [h1]
    exact hn

/-! ## Preservation of the invariant by every operation -/

theorem insertRoom_good {db db' : DB} {n t : String} {cap : Nat}
    (hg : GoodDB db) (hty : (t = "O" ∧ cap = 6) ∨ (t = "L" ∧ cap = 4))
    (h : insertRoom db n t cap = .ok db') : GoodDB db' := by
  obtain ⟨hc, ht, hb, ha, hn⟩ := hg
  obtain ⟨h1, h2, h3⟩ := insertRoom_ok h
  have hzero : countIn db.people_rooms db.nextRoomId = 0 := by
    apply countIn_eq_zero
    intro a haa hcontra
    exact absurd (hcontra ▸ ha a haa) (lt_irrefl _)
  refine ⟨?_, ?_, ?_, ?_, ?_⟩
  · intro r hr
    rw [h1, List.mem_append] at hr
    have hcount : occupantCount db' r.id = countIn db.people_rooms r.id := by
      simp [occupantCount, h2]
    cases hr with
    | inl hr =>
      rw [hcount]
      exact hc r hr
    | inr hr =>
      simp only [List.mem_singleton] at hr
      subst hr
      rw [hcount]
      simpa using le_of_eq_of_le hzero (Nat.zero_le _)
  · intro r hr
    rw [h1, List.mem_append] at hr
    cases hr with
    | inl hr => exact ht r hr
    | inr hr =>
      simp only [List.mem_singleton] at hr
      subst hr
      exact hty
  · intro r hr
    rw [h1, List.mem_append] at hr
    rw [h3]
    cases hr with
    | inl hr => exact Nat.lt_succ_of_lt (hb r hr)
    | inr hr =>
      simp only [List.mem_singleton] at hr
      subst hr
      exact Nat.lt_succ_self _
  · intro a haa
    rw [h2] at haa
    rw [h3]
    exact Nat.lt_succ_of_lt (ha a haa)
  · unfold RoomIdsNodup
    rw [h1, List.pairwise_append]
    refine ⟨hn, List.pairwise_singleton _ _, ?_⟩
    intro r hr s hs
    simp only [List.mem_singleton] at hs
    subst hs
    intro heq
    exact absurd (heq ▸ hb r hr) (lt_irrefl _)

theorem createRoomsLoop_good (t : String) (names : List String) :
    ∀ db : DB, GoodDB db → GoodDB (createRoomsLoop db t names).1 := by
  induction names with
  | nil =>
    intro db hg
    exact hg
  | cons n rest ih =>
    intro db hg
    simp only [createRoomsLoop]
    by_cases ht : (t == "living_space") = true
    · rw [if_pos ht]
      cases hsave : livingSpaceSave db n with
      | error e => exact hg
      | ok db' => exact ih db' (insertRoom_good hg (Or.inr ⟨rfl, rfl⟩) hsave)
    · rw [if_neg ht]
      cases hsave : officeSave db n with
      | error e => exact hg
      | ok db' => exact ih db' (insertRoom_good hg (Or.inl ⟨rfl, rfl⟩) hsave)

theorem createRooms_good {db : DB} (hg : GoodDB db) (t : String) (names : List String) :
    GoodDB (createRooms db t names).1 := by
  unfold createRooms
  split
  · exact hg
  · exact createRoomsLoop_good t names db hg

theorem addFellowsLoop_fields (wa : String) (names : List String) :
    ∀ db : DB, (addFellowsLoop db wa names).1.rooms = db.rooms ∧
      (addFellowsLoop db wa names).1.people_rooms = db.people_rooms ∧
      (addFellowsLoop db wa names).1.nextRoomId = db.nextRoomId := by
  induction names with
  | nil =>
    intro db
    exact ⟨rfl, rfl, rfl⟩
  | cons n rest ih =>
    intro db
    simp only [addFellowsLoop]
    cases hsave : fellowSave db n wa with
    | error e => exact ⟨rfl, rfl, rfl⟩
    | ok db' =>
      obtain ⟨h1, h2, h3, _⟩ := insertPerson_ok hsave
      obtain ⟨g1, g2, g3⟩ := ih db'
      exact ⟨g1.trans h1, g2.trans h2, g3.trans h3⟩

theorem addStaffLoop_fields (names : List String) :
    ∀ db : DB, (addStaffLoop db names).1.rooms = db.rooms ∧
      (addStaffLoop db names).1.people_rooms = db.people_rooms ∧
      (addStaffLoop db names).1.nextRoomId = db.nextRoomId := by
  induction names with
  | nil =>
    intro db
    exact ⟨rfl, rfl, rfl⟩
  | cons n rest ih =>
    intro db
    simp only [addStaffLoop]
    cases hsave : staffSave db n with
    | error e => exact ⟨rfl, rfl, rfl⟩
    | ok db' =>
      obtain ⟨h1, h2, h3, _⟩ := insertPerson_ok hsave
      obtain ⟨g1, g2, g3⟩ := ih db'
      exact ⟨g1.trans h1, g2.trans h2, g3.trans h3⟩

theorem saveFellowsAux_fields (fuel : Nat) :
    ∀ (db : DB) (lst : List (String × String)) (i : Nat),
      (saveFellowsAux db lst i fuel).1.rooms = db.rooms ∧
      (saveFellowsAux db lst i fuel).1.people_rooms = db.people_rooms ∧
      (saveFellowsAux db lst i fuel).1.nextRoomId = db.nextRoomId := by
  induction fuel with
  | zero =>
    intro db lst i
    exact ⟨rfl, rfl, rfl⟩
  | succ fuel ih =>
    intro db lst i
    simp only [saveFellowsAux]
    split
    · next h =>
      cases hsave : fellowSave db (lst.get ⟨i, h⟩).1 (lst.get ⟨i, h⟩).2 with
      | error e => exact ih db (lst.erase (lst.get ⟨i, h⟩)) (i + 1)
      | ok db' =>
        obtain ⟨h1, h2, h3, _⟩ := insertPerson_ok hsave
        obtain ⟨g1, g2, g3⟩ := ih db' lst (i + 1)
        exact ⟨g1.trans h1, g2.trans h2, g3.trans h3⟩
    · exact ⟨rfl, rfl, rfl⟩

theorem saveStaffAux_fields (fuel : Nat) :
    ∀ (db : DB) (lst : List String) (i : Nat),
      (saveStaffAux db lst i fuel).1.rooms = db.rooms ∧
      (saveStaffAux db lst i fuel).1.people_rooms = db.people_rooms ∧
      (saveStaffAux db lst i fuel).1.nextRoomId = db.nextRoomId := by
  induction fuel with
  | zero =>
    intro db lst i
    exact ⟨rfl, rfl, rfl⟩
  | succ fuel ih =>
    intro db lst i
    simp only [saveStaffAux]
    split
    · next h =>
      cases hsave : staffSave db (lst.get ⟨i, h⟩) with
      | error e => exact ih db (lst.erase (lst.get ⟨i, h⟩)) (i + 1)
      | ok db' =>
        obtain ⟨h1, h2, h3, _⟩ := insertPerson_ok hsave
        obtain ⟨g1, g2, g3⟩ := ih db' lst (i + 1)
        exact ⟨g1.trans h1, g2.trans h2, g3.trans h3⟩
    · exact ⟨rfl, rfl, rfl⟩

theorem loadPeople_fields (db : DB) (lines : List String) :
    (loadPeople db lines).1.rooms = db.rooms ∧
    (loadPeople db lines).1.people_rooms = db.people_rooms ∧
    (loadPeople db lines).1.nextRoomId = db.nextRoomId := by
  unfold loadPeople
  cases hp : parseLines lines [] [] with
  | error e => exact ⟨rfl, rfl, rfl⟩
  | ok fs =>
    obtain ⟨fellows, staff⟩ := fs
    obtain ⟨f1, f2, f3⟩ := saveFellowsAux_fields fellows.length db fellows 0
    obtain ⟨s1, s2, s3⟩ :=
      saveStaffAux_fields staff.length (saveFellows db fellows).1 staff 0
    exact ⟨s1.trans f1, s2.trans f2, s3.trans f3⟩

theorem findRoomById_mem {db : DB} {rid : Nat} {r : RoomRec}
    (h : findRoomById db rid = some r) : r ∈ db.rooms ∧ r.id = rid := by
  unfold findRoomById at h
  refine ⟨List.mem_of_find?_eq_some h, ?_⟩
  have := List.find?_some h
  simpa using this

theorem findRoomByName_mem {db : DB} {nm : String} {r : RoomRec}
    (h : findRoomByName db nm = some r) : r ∈ db.rooms ∧ r.name = nm := by
  unfold findRoomByName at h
  refine ⟨List.mem_of_find?_eq_some h, ?_⟩
  have := List.find?_some h
  simpa using this

theorem findPersonByName_mem {db : DB} {nm : String} {p : PersonRec}
    (h : findPersonByName db nm = some p) : p ∈ db.people ∧ p.name = nm := by
  unfold findPersonByName at h
  refine ⟨List.mem_of_find?_eq_some h, ?_⟩
  have := List.find?_some h
  simpa using this

theorem assign_good {db : DB} (hg : GoodDB db) (pid rid : Nat) :
    GoodDB (assign db pid rid).1 := by
  unfold assign
  cases hp : findPersonById db pid with
  | none => exact hg
  | some p =>
    cases hr : findRoomById db rid with
    | none => exact hg
    | some r =>
      obtain ⟨hrm, hrid⟩ := findRoomById_mem hr
      subst hrid
      show GoodDB
        (if occupantCount db r.id = r.capacity then (db, some Err.capacityExceeded)
         else if holdsType db pid r.type then (db, some Err.alreadyAssigned)
         else if !(eligible p.type r.type) then (db, some Err.typeMismatch)
         else ({ db with
           people_rooms := db.people_rooms ++ [⟨db.nextAssignId, pid, r.id⟩],
           nextAssignId := db.nextAssignId + 1 }, none)).1
      by_cases hcap : occupantCount db r.id = r.capacity
      · rw [if_pos hcap]
        exact hg
      rw [if_neg hcap]
      by_cases hheld : holdsType db pid r.type = true
      · rw [if_pos hheld]
        exact hg
      rw [if_neg hheld]
      by_cases helig : (!eligible p.type r.type) = true
      · rw [if_pos helig]
        exact hg
      rw [if_neg helig]
      obtain ⟨hc, ht, hb, ha, hn⟩ := hg
      unfold occupantCount at hcap
      refine ⟨?_, ht, hb, ?_, hn⟩
      · intro s hs
        show countIn (db.people_rooms ++ [⟨db.nextAssignId, pid, r.id⟩]) s.id ≤ s.capacity
        rw [countIn_append, countIn_singleton]
        by_cases hid : r.id = s.id
        · have hsr : s = r := room_id_inj hn hs hrm hid.symm
          -- the new assignment targets room `r`, which had strictly spare capacity
          rw [if_pos hid, hsr]
          have hle : occupantCount db r.id ≤ r.capacity := hc r hrm
          unfold occupantCount at hle
          omega
        · rw [if_neg hid]
          have hle : occupantCount db s.id ≤ s.capacity := hc s hs
          unfold occupantCount at hle
          omega
      · intro a haa
        show a.room_id < db.nextRoomId
        rw [List.mem_append] at haa
        cases haa with
        | inl haa => exact ha a haa
        | inr haa =>
          simp only [List.mem_singleton] at haa
          subst haa
          exact hb r hrm

theorem reallocate_good {db : DB} (hg : GoodDB db) (pn rn : String) :
    GoodDB (reallocate db pn rn).1 := by
  unfold reallocate
  cases hp : findPersonByName db pn with
  | none => exact hg
  | some p =>
    cases hr : findRoomByName db rn with
    | none => exact hg
    | some r =>
      obtain ⟨hrm, _⟩ := findRoomByName_mem hr
      show GoodDB
        (if !(eligible p.type r.type) then (db, some Err.typeMismatch)
         else if r.capacity ≤ occupantCount db r.id then (db, some Err.capacityExceeded)
         else if db.people_rooms.any (fun a => a.person_id == p.id && a.room_id == r.id) then
           (db, some Err.sameRoom)
         else ({ db with
           people_rooms := db.people_rooms.filter
             (fun a => !(a.person_id == p.id && assignRoomType db a == some r.type)) ++
             [⟨db.nextAssignId, p.id, r.id⟩],
           nextAssignId := db.nextAssignId + 1 }, none)).1
      by_cases helig : (!eligible p.type r.type) = true
      · rw [if_pos helig]
        exact hg
      rw [if_neg helig]
      by_cases hcap : r.capacity ≤ occupantCount db r.id
      · rw [if_pos hcap]
        exact hg
      rw [if_neg hcap]
      by_cases hsame :
          (db.people_rooms.any (fun a => a.person_id == p.id && a.room_id == r.id)) = true
      · rw [if_pos hsame]
        exact hg
      rw [if_neg hsame]
      obtain ⟨hc, ht, hb, ha, hn⟩ := hg
      unfold occupantCount at hcap
      refine ⟨?_, ht, hb, ?_, hn⟩
      · intro s hs
        show countIn
          (db.people_rooms.filter
            (fun a => !(a.person_id == p.id && assignRoomType db a == some r.type)) ++
            [⟨db.nextAssignId, p.id, r.id⟩]) s.id ≤ s.capacity
        rw [countIn_append, countIn_singleton]
        have hsub : countIn
            (db.people_rooms.filter
              (fun a => !(a.person_id == p.id && assignRoomType db a == some r.type))) s.id ≤
            countIn db.people_rooms s.id :=
          countIn_le_of_sublist (List.filter_sublist _) s.id
        by_cases hid : r.id = s.id
        · have hsr : s = r := room_id_inj hn hs hrm hid.symm
          rw [if_pos hid]
          rw [hsr] at hsub ⊢
          -- the destination had strictly spare capacity before the swap
          omega
        · rw [if_neg hid]
          have hle : occupantCount db s.id ≤ s.capacity := hc s hs
          unfold occupantCount at hle
          omega
      · intro a haa
        show a.room_id < db.nextRoomId
        rw [List.mem_append] at haa
        cases haa with
        | inl haa => exact ha a (List.mem_of_mem_filter haa)
        | inr haa =>
          simp only [List.mem_singleton] at haa
          subst haa
          exact hb r hrm

theorem applyOp_good {db : DB} (hg : GoodDB db) (op : Op) : GoodDB (applyOp db op).1 := by
  cases op with
  | createRooms t rs => exact createRooms_good hg t rs
  | addFellows fs a =>
    obtain ⟨h1, h2, h3⟩ :=
      addFellowsLoop_fields (if lowerStr a == "y" then "Y" else "N") fs db
    exact goodDB_of_fields hg h1 h2 h3
  | addStaff s =>
    obtain ⟨h1, h2, h3⟩ := addStaffLoop_fields s db
    exact goodDB_of_fields hg h1 h2 h3
  | loadPeople ls =>
    obtain ⟨h1, h2, h3⟩ := loadPeople_fields db ls
    exact goodDB_of_fields hg h1 h2 h3
  | assign p r => exact assign_good hg p r
  | reallocate p r => exact reallocate_good hg p r

theorem runOps_good (ops : List Op) : ∀ db : DB, GoodDB db → GoodDB (runOps db ops) := by
  induction ops with
  | nil =>
    intro db hg
    exact hg
  | cons op rest ih =>
    intro db hg
    exact ih _ (applyOp_good hg op)

theorem runOps_init_good (ops : List Op) : GoodDB (runOps initDB ops) :=
  runOps_good ops initDB goodDB_init

/-! ## What the person-adding loops write -/

theorem addFellowsLoop_people (wa : String) (names : List String) :
    ∀ db : DB, ∀ p ∈ (addFellowsLoop db wa names).1.people,
      p ∈ db.people ∨ (p.type = "F" ∧ p.accomodation = wa) := by
  induction names with
  | nil =>
    intro db p hp
    exact .inl hp
  | cons n rest ih =>
    intro db p hp
    simp only [addFellowsLoop] at hp
    cases hsave : fellowSave db n wa with
    | error e =>
      rw [hsave] at hp
      exact .inl hp
    | ok db' =>
      rw [hsave] at hp
      rcases ih db' p hp with h | h
      · obtain ⟨_, _, _, h4⟩ := insertPerson_ok hsave
        rw [h4, List.mem_append] at h
        cases h with
        | inl h => exact .inl h
        | inr h =>
          simp only [List.mem_singleton] at h
          subst h
          exact .inr ⟨rfl, rfl⟩
      · exact .inr h

theorem addStaffLoop_people (names : List String) :
    ∀ db : DB, ∀ p ∈ (addStaffLoop db names).1.people,
      p ∈ db.people ∨ (p.type = "S" ∧ p.accomodation = "N") := by
  induction names with
  | nil =>
    intro db p hp
    exact .inl hp
  | cons n rest ih =>
    intro db p hp
    simp only [addStaffLoop] at hp
    cases hsave : staffSave db n with
    | error e =>
      rw [hsave] at hp
      exact .inl hp
    | ok db' =>
      rw [hsave] at hp
      rcases ih db' p hp with h | h
      · obtain ⟨_, _, _, h4⟩ := insertPerson_ok hsave
        rw [h4, List.mem_append] at h
        cases h with
        | inl h => exact .inl h
        | inr h =>
          simp only [List.mem_singleton] at h
          subst h
          exact .inr ⟨rfl, rfl⟩
      · exact .inr h

/-! ## The reading phase aborts on a malformed line before any write -/

theorem parseLines_malformed (lines : List String) :
    ∀ (fs : List (String × String)) (ss : List String),
      (∃ l ∈ lines, containsSub l "FELLOW" = false ∧ containsSub l "STAFF" = false) →
      parseLines lines fs ss = .error .invalidRecord := by
  induction lines with
  | nil =>
    intro fs ss h
    simp at h
  | cons line rest ih =>
    intro fs ss h
    obtain ⟨l, hl, h1, h2⟩ := h
    simp only [List.mem_cons] at hl
    by_cases hf : containsSub line "FELLOW" = true
    · have hlr : l ∈ rest := by
        cases hl with
        | inl hle =>
          rw [hle] at h1
          rw [h1] at hf
          exact absurd hf (by simp)
        | inr hlr => exact hlr
      simp only [parseLines]
      rw [if_pos hf]
      exact ih _ _ ⟨l, hlr, h1, h2⟩
    · by_cases hs : containsSub line "STAFF" = true
      · have hlr : l ∈ rest := by
          cases hl with
          | inl hle =>
            rw [hle] at h2
            rw [h2] at hs
            exact absurd hs (by simp)
          | inr hlr => exact hlr
        simp only [parseLines]
        rw [if_neg hf, if_pos hs]
        exact ih _ _ ⟨l, hlr, h1, h2⟩
      · simp only [parseLines]
        rw [if_neg hf, if_neg hs]

/-- Reduce `reallocate` when both lookups succeed. -/
theorem reallocate_some_some {db : DB} {pn rn : String} {p : PersonRec} {r : RoomRec}
    (hp : findPersonByName db pn = some p) (hr : findRoomByName db rn = some r) :
    reallocate db pn rn =
      (if !(eligible p.type r.type) then (db, some Err.typeMismatch)
       else if r.capacity ≤ occupantCount db r.id then (db, some Err.capacityExceeded)
       else if db.people_rooms.any (fun a => a.person_id == p.id && a.room_id == r.id) then
         (db, some Err.sameRoom)
       else ({ db with
         people_rooms := db.people_rooms.filter
           (fun a => !(a.person_id == p.id && assignRoomType db a == some r.type)) ++
           [⟨db.nextAssignId, p.id, r.id⟩],
         nextAssignId := db.nextAssignId + 1 }, none)) := by
  unfold reallocate
  rw [hp, hr]

/-! ## The claims -/

/-- C1: for every room, after any sequence of operations (room creation,
person addition, bulk load, assignment, reallocation) run from the fresh
facility, the count of occupants assigned to that room is at most the
room's capacity. -/
theorem c1_occupants_le_capacity (ops : List Op) (r : RoomRec)
    (h : r ∈ (runOps initDB ops).rooms) :
    occupantCount (runOps initDB ops) r.id ≤ r.capacity :=
  (runOps_init_good ops).1 r h

theorem c1_witness :
    occupantCount
      (runOps initDB
        [.createRooms "office" ["Valhalla"], .addStaff ["BOB"], .assign 1 1]) 1 ≤ 6 :=
  c1_occupants_le_capacity
    [.createRooms "office" ["Valhalla"], .addStaff ["BOB"], .assign 1 1]
    ⟨1, "Valhalla", "O", 6⟩ (by decide)

/-- C2: every room reachable by any operation sequence is an office with
capacity exactly 6 or a living space with capacity exactly 4; since this
holds at every state, the capacity fixed at creation is never mutated. -/
theorem c2_room_capacity_by_type (ops : List Op) (r : RoomRec)
    (h : r ∈ (runOps initDB ops).rooms) :
    (r.type = "O" ∧ r.capacity = 6) ∨ (r.type = "L" ∧ r.capacity = 4) :=
  (runOps_init_good ops).2.1 r h

theorem c2_witness :
    ((⟨1, "Python", "L", 4⟩ : RoomRec).type = "O" ∧
      (⟨1, "Python", "L", 4⟩ : RoomRec).capacity = 6) ∨
    ((⟨1, "Python", "L", 4⟩ : RoomRec).type = "L" ∧
      (⟨1, "Python", "L", 4⟩ : RoomRec).capacity = 4) :=
  c2_room_capacity_by_type [.createRooms "living_space" ["Python"]]
    ⟨1, "Python", "L", 4⟩ (by decide)

/-- C3, counterexample to the claim as stated: loading a file whose second
line is malformed does fail with `InvalidRecord`, but the well-formed first
line (`ALICE FELLOW Y`) is NOT committed — the people table stays empty,
because `load_people` parses the whole file before persisting anything. -/
theorem c3_counterexample :
    loadPeople initDB ["ALICE FELLOW Y", "XYZ"] = (initDB, some Err.invalidRecord) ∧
    (loadPeople initDB ["ALICE FELLOW Y", "XYZ"]).1.people = [] :=
  ⟨by decide, by decide⟩

/-- C3, amended: a bulk load containing any malformed line (matching neither
record shape) fails with `InvalidRecord` and commits nothing at all — the
database is returned unchanged, lines before the malformed one included. -/
theorem c3_amended_no_commit (db : DB) (lines : List String)
    (h : ∃ l ∈ lines, containsSub l "FELLOW" = false ∧ containsSub l "STAFF" = false) :
    loadPeople db lines = (db, some Err.invalidRecord) := by
  unfold loadPeople
  rw [parseLines_malformed lines [] [] h]

theorem c3_witness :
    loadPeople initDB ["GARBAGE LINE"] = (initDB, some Err.invalidRecord) :=
  c3_amended_no_commit initDB ["GARBAGE LINE"]
    ⟨"GARBAGE LINE", by decide, by decide, by decide⟩

/-- C4: evaluation of the bulk load at the failing input.  The registry
already holds fellow ALICE; the file adds ALICE (duplicate) and BOB (new).
The duplicate raises `IntegrityError`, the handler calls `fellows.remove`
on the list being iterated, the iterator skips over BOB, and BOB is never
saved — yet the load reports no error.  The claim's "every entry whose name
does not already exist is added" is violated by the code. -/
theorem c4_iteration_bug_drops_new_name :
    (loadPeople (addFellows initDB ["ALICE"] "y").1
      ["ALICE FELLOW Y", "BOB FELLOW Y"]).1.people.map PersonRec.name = ["ALICE"] ∧
    (loadPeople (addFellows initDB ["ALICE"] "y").1
      ["ALICE FELLOW Y", "BOB FELLOW Y"]).2 = none :=
  ⟨by decide, by decide⟩

/-- C5, counterexample to the claim as stated: creating a room whose name
already exists surfaces the storage layer's raw `IntegrityError`, not
`DuplicateName`. -/
theorem c5_counterexample :
    (createRooms (createRooms initDB "office" ["Valhalla"]).1 "office" ["Valhalla"]).2 =
      some Err.integrityError ∧
    (createRooms (createRooms initDB "office" ["Valhalla"]).1 "office" ["Valhalla"]).2 ≠
      some Err.duplicateName :=
  ⟨by decide, by decide⟩

/-- C5, amended: when the name already exists, `create_rooms` and
`add_fellows` propagate the storage layer's `IntegrityError` raw to the
caller (no translation to `DuplicateName` exists in the code; only
`load_people` catches `IntegrityError`, to skip duplicates). -/
theorem c5_amended_raw_integrity_error (db : DB) (rname pname acc : String)
    (hr : ∃ r ∈ db.rooms, r.name = rname) (hp : ∃ q ∈ db.people, q.name = pname) :
    createRooms db "office" [rname] = (db, some Err.integrityError) ∧
    addFellows db [pname] acc = (db, some Err.integrityError) := by
  constructor
  · have hcond : ¬(("office" : String) ≠ "living_space" ∧ ("office" : String) ≠ "office") := by
      simp
    have hany : (db.rooms.any (fun r => r.name == rname)) = true := by
      rw [List.any_eq_true]
      obtain ⟨r, hrm, hrn⟩ := hr
      exact ⟨r, hrm, by simp [hrn]⟩
    have hsave : officeSave db rname = .error .integrityError := by
      unfold officeSave insertRoom
      rw [if_pos hany]
    unfold createRooms
    rw [if_neg hcond]
    unfold createRoomsLoop
    have hlt : (("office" : String) == "living_space") = false := by decide
    rw [hlt]
    show (match officeSave db rname with
      | .error e => (db, some e)
      | .ok db' => createRoomsLoop db' "office" []) = (db, some Err.integrityError)
    rw [hsave]
  · have hany : (db.people.any (fun q => q.name == pname)) = true := by
      rw [List.any_eq_true]
      obtain ⟨q, hqm, hqn⟩ := hp
      exact ⟨q, hqm, by simp [hqn]⟩
    have hsave : ∀ w : String, fellowSave db pname w = .error .integrityError := by
      intro w
      unfold fellowSave insertPerson
      rw [if_pos hany]
    show addFellowsLoop db (if lowerStr acc == "y" then "Y" else "N") [pname] =
      (db, some Err.integrityError)
    unfold addFellowsLoop
    rw [hsave]

theorem c5_witness :
    createRooms
        (runOps initDB [.createRooms "office" ["Valhalla"], .addFellows ["ALICE"] "y"])
        "office" ["Valhalla"] =
      (runOps initDB [.createRooms "office" ["Valhalla"], .addFellows ["ALICE"] "y"],
        some Err.integrityError) ∧
    addFellows
        (runOps initDB [.createRooms "office" ["Valhalla"], .addFellows ["ALICE"] "y"])
        ["ALICE"] "n" =
      (runOps initDB [.createRooms "office" ["Valhalla"], .addFellows ["ALICE"] "y"],
        some Err.integrityError) :=
  c5_amended_raw_integrity_error _ "Valhalla" "ALICE" "n"
    ⟨⟨1, "Valhalla", "O", 6⟩, by decide, rfl⟩
    ⟨⟨1, "ALICE", "F", "Y"⟩, by decide, rfl⟩

/-- C6: `create_rooms` with a type outside the two recognized values fails
with the invalid-type error and returns the database unchanged, so no room
is persisted. -/
theorem c6_invalid_type_no_persist (db : DB) (ty : String) (names : List String)
    (h1 : ty ≠ "living_space") (h2 : ty ≠ "office") :
    createRooms db ty names = (db, some Err.invalidType) := by
  unfold createRooms
  rw [if_pos ⟨h1, h2⟩]

theorem c6_witness :
    createRooms initDB "attic" ["A", "B"] = (initDB, some Err.invalidType) :=
  c6_invalid_type_no_persist initDB "attic" ["A", "B"] (by decide) (by decide)

/-- C7: every person present after `add_staff` either was already in the
registry or is recorded as staff with accomodation `"N"` (that is,
`wants_accommodation = false`), whatever the surrounding inputs were —
`add_staff` accepts no accommodation argument and `Staff.save` hardcodes
`'N'`. -/
theorem c7_staff_accomodation_false (db : DB) (names : List String) (p : PersonRec)
    (hp : p ∈ (addStaff db names).1.people) :
    p ∈ db.people ∨ (p.type = "S" ∧ p.accomodation = "N") :=
  addStaffLoop_people names db p hp

theorem c7_witness :
    (⟨1, "BOB", "S", "N"⟩ : PersonRec) ∈ initDB.people ∨
    ((⟨1, "BOB", "S", "N"⟩ : PersonRec).type = "S" ∧
      (⟨1, "BOB", "S", "N"⟩ : PersonRec).accomodation = "N") :=
  c7_staff_accomodation_false initDB ["BOB"] ⟨1, "BOB", "S", "N"⟩ (by decide)

/-- C8: for every room, `available_rooms` reports an entry whose
`available_space` is the room's capacity minus the count of persons
currently assigned to it. -/
theorem c8_available_space_eq (db : DB) (r : RoomRec) (h : r ∈ db.rooms) :
    (⟨r.name, r.type, r.capacity,
      (r.capacity : Int) - (occupantCount db r.id : Int)⟩ : RoomReport) ∈
      availableRooms db := by
  unfold availableRooms
  exact List.mem_map_of_mem _ h

theorem c8_witness :
    (⟨"Valhalla", "O", 6,
      ((6 : Nat) : Int) -
        (occupantCount (createRooms initDB "office" ["Valhalla"]).1 1 : Int)⟩ : RoomReport) ∈
      availableRooms (createRooms initDB "office" ["Valhalla"]).1 :=
  c8_available_space_eq (createRooms initDB "office" ["Valhalla"]).1
    ⟨1, "Valhalla", "O", 6⟩ (by decide)

/-- C9: reallocating a staff member into a living-space room fails with
`TypeMismatch` and leaves the database (in particular the assignment table)
unchanged. -/
theorem c9_staff_to_living_space_type_mismatch (db : DB) (pn rn : String)
    (p : PersonRec) (r : RoomRec)
    (hp : findPersonByName db pn = some p) (hstaff : p.type = "S")
    (hr : findRoomByName db rn = some r) (hliving : r.type = "L") :
    reallocate db pn rn = (db, some Err.typeMismatch) := by
  rw [reallocate_some_some hp hr]
  have helig : (!(eligible p.type r.type)) = true := by
    rw [hstaff, hliving]
    decide
  rw [if_pos helig]

theorem c9_witness :
    reallocate
      (runOps initDB [.createRooms "living_space" ["Python"], .addStaff ["SHERLOCK HOLMES"]])
      "SHERLOCK HOLMES" "Python" =
    (runOps initDB [.createRooms "living_space" ["Python"], .addStaff ["SHERLOCK HOLMES"]],
      some Err.typeMismatch) :=
  c9_staff_to_living_space_type_mismatch _ "SHERLOCK HOLMES" "Python"
    ⟨1, "SHERLOCK HOLMES", "S", "N"⟩ ⟨1, "Python", "L", 4⟩
    (by decide) rfl (by decide) rfl

/-- C10: every fellow newly added by one `add_fellows` call is stored with
type `"F"` and the accomodation flag obtained by normalizing the call's
single accommodation argument once: `"Y"` exactly when it lower-cases to
`"y"`, `"N"` otherwise. -/
theorem c10_fellow_accomodation_normalized (db : DB) (names : List String)
    (acc : String) (p : PersonRec)
    (hp : p ∈ (addFellows db names acc).1.people) (hnew : p ∉ db.people) :
    p.type = "F" ∧ p.accomodation = (if lowerStr acc == "y" then "Y" else "N") := by
  have h := addFellowsLoop_people (if lowerStr acc == "y" then "Y" else "N") names db p hp
  cases h with
  | inl h => exact absurd h hnew
  | inr h => exact h

theorem c10_witness :
    (⟨1, "KIM", "F", "Y"⟩ : PersonRec).type = "F" ∧
    (⟨1, "KIM", "F", "Y"⟩ : PersonRec).accomodation =
      (if lowerStr "Y" == "y" then "Y" else "N") :=
  c10_fellow_accomodation_normalized initDB ["KIM"] "Y" ⟨1, "KIM", "F", "Y"⟩
    (by decide) (by decide)
